import Mathlib

set_option linter.unusedVariables false

/-!
Verification of the ytdownloader task-lifecycle and retention subsystem:
a shallow embedding of `src/app.py` and `src/cleanup.py`.

Modeling conventions:
* Wall-clock reads (`time.time()`) are passed in explicitly; the reads inside one
  function call are modeled as a single instant `now`.
* The yt-dlp fetcher is a black box.  A `FetchEnv` records what the collaborator did
  during one `download_video` run: the progress-hook events it delivered (in order),
  the files it created in the staging directory `downloaded/`, and the outcome of
  `extract_info`; plus the outcomes of the fallible filesystem/database steps of the
  worker body (`shutil.move`, per-file `unlink`, the sqlite insert).
* The in-memory task registry `tasks` is a map from id to `Task`.  One Python
  statement group that updates the entry for the running task id is one atomic step;
  `download_video` returns, besides the final system state, the trace of snapshots of
  the running task after each such step.  Registry entries are created by
  `/download` before the worker is submitted, so the theorems about the worker assume
  the entry for `task_id` exists (a missing entry would raise `KeyError` in Python;
  this branch is modeled as a no-op and is outside every claim).
* The sqlite table `downloads` is a list of rows; its `PRIMARY KEY` constraint is the
  hypothesis that the stored ids are `Nodup`.
* Files are modeled per concern: staging files of the worker carry their owning task
  id (the `{task_id}_` name prefix) and whether `unlink` would succeed; the expired
  sweep sees the retained files as a map from path to a `FileStatus`; the orphan
  sweep sees the staging directory as a list of entries with an mtime.
* Python `int((downloaded/total) * 100)` is modeled as exact floor division
  `downloaded * 100 / total`.
-/

namespace Ytdl

/-- Task states, the string `status` values used in `app.py`
(`queued`, `downloading`, `converting`, `ready`, `error`). -/
inductive Status where
  | queued
  | downloading
  | converting
  | ready
  | error
deriving DecidableEq

/-- Rank of a status in the forward order of the worker's state machine. -/
def statRank : Status → Nat
  | .queued => 0
  | .downloading => 1
  | .converting => 2
  | .ready => 3
  | .error => 3

/-- One entry of the in-memory `tasks` dict (app.py 37, 422-429, 361-365). -/
structure Task where
  status : Status
  progress : Nat
  url : String
  quality : String
  format_type : String
  video_id : Option String
  title : Option String
  filepath : Option String
  filename : Option String
  expiry : Option Int
  error : Option String
deriving DecidableEq

/-- The in-memory task registry: `tasks` keyed by task id. -/
def TaskMap := String → Option Task

/-- Point update of the registry at one id. -/
def setTask (m : TaskMap) (id : String) (t : Task) : TaskMap :=
  fun j => if j = id then some t else m j

/-- One row of the sqlite `downloads` table (app.py 53-65). -/
structure DlRecord where
  id : String
  video_id : Option String
  title : Option String
  filepath : String
  duration_seconds : Int
  expiry_timestamp : Int
  format_info : String
  status : String
  created_at : Int
deriving DecidableEq

/-- `calculate_expiry` (app.py 112-118): retention time is MAX(2 hours, duration). -/
def calculate_expiry (duration_seconds : Int) : Int :=
  let two_hours : Int := 2 * 60 * 60
  max two_hours duration_seconds

/-- `save_download_record` (app.py 69-84): computes the expiry timestamp and runs
`INSERT OR REPLACE` keyed on the primary key `id`; returns the new table contents and
the expiry timestamp.  Both `time.time()` reads are the instant `now`. -/
def save_download_record (now : Int) (task_id : String) (video_id : Option String)
    (title : Option String) (filepath : String) (duration_seconds : Int)
    (format_info : String) (db : List DlRecord) : List DlRecord × Int :=
  let expiry_seconds := calculate_expiry duration_seconds
  let expiry_timestamp := now + expiry_seconds
  let row : DlRecord :=
    { id := task_id, video_id := video_id, title := title, filepath := filepath,
      duration_seconds := duration_seconds, expiry_timestamp := expiry_timestamp,
      format_info := format_info, status := "ready", created_at := now }
  (db.filter (fun r => !(r.id == task_id)) ++ [row], expiry_timestamp)

/-- `get_download_record` (app.py 86-106): `SELECT * FROM downloads WHERE id = ?`,
first row or `None`. -/
def get_download_record (task_id : String) (db : List DlRecord) : Option DlRecord :=
  db.find? (fun r => r.id == task_id)

/-- The JSON body (plus HTTP code) produced by the `/status/<task_id>` route.
A field of value `none` is a key that is absent from the JSON object; `some v` is a
present key holding `v` (where `v` itself may be Python `None`). -/
structure StatusResponse where
  httpCode : Nat
  errMsg : Option (Option String)
  status : Option Status
  progress : Option Nat
  title : Option (Option String)
  filename : Option (Option String)
  expiry : Option (Option Int)
deriving DecidableEq

/-- `get_status` (app.py 436-463): registry first, database fallback, else 404. -/
def get_status (tasks : TaskMap) (db : List DlRecord) (task_id : String) :
    StatusResponse :=
  match tasks task_id with
  | none =>
    match get_download_record task_id db with
    | some record =>
      { httpCode := 200, errMsg := none, status := some .ready, progress := none,
        title := some record.title, filename := none,
        expiry := some (some record.expiry_timestamp) }
    | none =>
      { httpCode := 404, errMsg := some (some "Task not found"), status := none,
        progress := none, title := none, filename := none, expiry := none }
  | some task =>
    let base : StatusResponse :=
      { httpCode := 200, errMsg := none, status := some task.status,
        progress := some task.progress, title := none, filename := none,
        expiry := none }
    match task.status with
    | .ready =>
      { base with
        title := some task.title, filename := some task.filename,
        expiry := some task.expiry }
    | .error => { base with errMsg := some task.error }
    | _ => base

/-- One invocation of the yt-dlp progress hook (app.py 301-309), as seen by the
worker: a `downloading` report carries `downloaded_bytes` and the collapsed
`total_bytes or total_bytes_estimate or 0` (so `total = 0` means unknown); a
`finished` report has no byte counts; any other hook status is ignored. -/
inductive HookEvent where
  | progressEvt (downloaded total : Nat)
  | finished
  | otherEvt
deriving DecidableEq

/-- `progress_hook` (app.py 301-309) acting on the running task's registry entry. -/
def progress_hook (e : HookEvent) (t : Task) : Task :=
  match e with
  | .progressEvt downloaded total =>
    if 0 < total then { t with progress := downloaded * 100 / total } else t
  | .finished => { t with status := .converting, progress := 100 }
  | .otherEvt => t

/-- Deliver a list of hook events; returns the final task and the snapshot after
each event. -/
def runHooks : List HookEvent → Task → Task × List Task
  | [], t => (t, [])
  | e :: es, t =>
    let t2 := progress_hook e t
    let out := runHooks es t2
    (out.1, t2 :: out.2)

/-- The pairs `(downloaded, total)` of the known-total `downloading` reports that are
delivered before the first `finished` report, i.e. while the task status is still
`downloading`. -/
def knownProgressPairs : List HookEvent → List (Nat × Nat)
  | [] => []
  | .finished :: _ => []
  | .progressEvt d t :: es =>
    if 0 < t then (d, t) :: knownProgressPairs es else knownProgressPairs es
  | .otherEvt :: es => knownProgressPairs es

/-- Executable check that a list of byte-count pairs has non-decreasing `downloaded`
and one fixed `total`: the fetcher contract for a single transfer. -/
def monoPairs : List (Nat × Nat) → Bool
  | [] => true
  | [_] => true
  | a :: b :: rest => decide (a.1 ≤ b.1) && a.2 == b.2 && monoPairs (b :: rest)

/-- A file in the staging directory `downloaded/`, named `{owner}_{rest}`.
`unlinkFail = some m` means `Path.unlink` on it raises an error with message `m`. -/
structure StagedFile where
  owner : String
  rest : String
  unlinkFail : Option String
deriving DecidableEq

/-- The info dict returned by a successful `ydl.extract_info` (fields the worker
reads: `id`, `title`, `duration`; a missing `duration` is already collapsed to 0 as
in `info.get('duration', 0)`). -/
structure YtInfo where
  video_id : Option String
  title : Option String
  duration : Int
deriving DecidableEq

/-- Everything the environment decides during one `download_video` run: the clock,
what the fetcher did (events, created staging files, outcome), and whether the
move / staging-cleanup-unlink (per file, via `StagedFile.unlinkFail`) / sqlite-insert
steps raise. -/
structure FetchEnv where
  now : Int
  events : List HookEvent
  createdFiles : List StagedFile
  extractResult : Except String YtInfo
  moveFail : Option String
  saveFail : Option String

/-- Characters kept by `re.sub(r'[^\w\s-]', '', title)` (ASCII approximation of
`\w` and `\s`). -/
def keepChar (c : Char) : Bool :=
  c.isAlphanum || c == '_' || c == ' ' || c == '\t' || c == '\n' || c == '-'

/-- `re.sub(r'[^\w\s-]', '', title)[:50]` (app.py 337). -/
def sanitizeTitle (s : String) : String :=
  ⟨(s.data.filter keepChar).take 50⟩

/-- Extension chosen by the `format_type` if/elif chain (app.py 264-298). -/
def finalExt (format_type : String) : String :=
  if format_type == "audio_mp3" then "mp3"
  else if format_type == "audio_m4a" then "m4a"
  else "mp4"

/-- The cleanup loop `for f in DOWNLOADED_DIR.glob(f"{task_id}_*"): f.unlink()`
(app.py 346-347): unlink the owned files in order until one raises; returns the
remaining staging directory and the raised message, if any. -/
def deleteLoop (task_id : String) : List StagedFile → List StagedFile × Option String
  | [] => ([], none)
  | f :: rest =>
    if f.owner == task_id then
      match f.unlinkFail with
      | none => deleteLoop task_id rest
      | some m => (f :: rest, some m)
    else
      let out := deleteLoop task_id rest
      (f :: out.1, out.2)

/-- Result of the `try:` block of `download_video`: the running task's final entry,
the trace of its snapshots, the resulting staging/converted/database state, and the
message of the exception that aborted the block, if any. -/
structure BodyOut where
  task : Task
  trace : List Task
  staging : List StagedFile
  converted : List String
  db : List DlRecord
  err : Option String

/-- Lines 251-252: the worker's first registry update. -/
def initTask (t0 : Task) : Task :=
  { t0 with status := .downloading, progress := 0 }

/-- The `try:` block of `download_video` (app.py 250-365).  Steps, in source order:
mark downloading; run the fetch (hook events fire, staging files appear, then
`extract_info` returns or raises); mark converting; glob the staging files owned by
the task id (empty glob raises "Downloaded file not found"); compute the sanitized
final filename; `shutil.move` the first owned file into `converted/`; unlink the
remaining owned staging files; `save_download_record`; mark ready with the result
fields.  The format-selector strings built for yt-dlp are input to the black-box
fetcher and are not modeled. -/
def runTask (env : FetchEnv) (task_id url quality format_type : String) (t0 : Task)
    (staging : List StagedFile) (conv : List String) (db : List DlRecord) : BodyOut :=
  let t1 := initTask t0
  let hooks := runHooks env.events t1
  let t2 := hooks.1
  let staging1 := staging ++ env.createdFiles
  match env.extractResult with
  | .error msg =>
    { task := t2, trace := t1 :: hooks.2, staging := staging1, converted := conv,
      db := db, err := some msg }
  | .ok info =>
    let t3 : Task := { t2 with status := .converting }
    let tr3 := t1 :: hooks.2 ++ [t3]
    match staging1.filter (fun f => f.owner == task_id) with
    | [] =>
      { task := t3, trace := tr3, staging := staging1, converted := conv, db := db,
        err := some "Downloaded file not found" }
    | _src :: _ =>
      let safe_title := sanitizeTitle (info.title.getD "video")
      let final_filename :=
        task_id ++ "_" ++ safe_title ++ "." ++ finalExt format_type
      let final_path := "converted/" ++ final_filename
      match env.moveFail with
      | some m =>
        { task := t3, trace := tr3, staging := staging1, converted := conv, db := db,
          err := some m }
      | none =>
        let staging2 := staging1.eraseP (fun f => f.owner == task_id)
        let conv2 := final_filename :: conv
        let cleaned := deleteLoop task_id staging2
        match cleaned.2 with
        | some m =>
          { task := t3, trace := tr3, staging := cleaned.1, converted := conv2,
            db := db, err := some m }
        | none =>
          match env.saveFail with
          | some m =>
            { task := t3, trace := tr3, staging := cleaned.1, converted := conv2,
              db := db, err := some m }
          | none =>
            let saved := save_download_record env.now task_id info.video_id
              info.title final_path info.duration (quality ++ "_" ++ format_type) db
            let t4 : Task :=
              { t3 with
                status := .ready, filepath := some final_path,
                filename := some final_filename, expiry := some saved.2,
                title := info.title }
            { task := t4, trace := tr3 ++ [t4], staging := cleaned.1,
              converted := conv2, db := saved.1, err := none }

/-- The whole mutable state `download_video` touches: the registry, the staging and
converted directories, and the database. -/
structure SysState where
  tasks : TaskMap
  staging : List StagedFile
  converted : List String
  db : List DlRecord

/-- `download_video` (app.py 244-369): run the `try:` block; on an exception set the
task's status to `error` and store `str(e)` (app.py 367-369).  Returns the new
system state and the trace of the running task's snapshots. -/
def download_video (env : FetchEnv) (task_id url quality format_type : String)
    (st : SysState) : SysState × List Task :=
  match st.tasks task_id with
  | none => (st, [])
  | some t0 =>
    let out := runTask env task_id url quality format_type t0 st.staging
      st.converted st.db
    match out.err with
    | none =>
      ({ tasks := setTask st.tasks task_id out.task, staging := out.staging,
         converted := out.converted, db := out.db }, out.trace)
    | some msg =>
      let tErr : Task := { out.task with status := .error, error := some msg }
      ({ tasks := setTask st.tasks task_id tErr, staging := out.staging,
         converted := out.converted, db := out.db }, out.trace ++ [tErr])

/-! ## cleanup.py -/

/-- State of one path on disk as the expired sweep sees it: absent, or present and
deletable, or present with `unlink` raising (permissions, I/O error). -/
inductive FileStatus where
  | absent
  | present (deletable : Bool)
deriving DecidableEq

/-- The retained-file area as a map from path to status. -/
def FileSys := String → FileStatus

/-- `delete_file_safely` (cleanup.py 63-73): returns `True` if the file was deleted
or already absent, `False` if `unlink` raised. -/
def delete_file_safely (fs : FileSys) (p : String) : FileSys × Bool :=
  match fs p with
  | .absent => (fs, true)
  | .present true => ((fun q => if q = p then .absent else fs q), true)
  | .present false => (fs, false)

/-- `get_expired_records` (cleanup.py 40-61): all rows with
`expiry_timestamp < now`. -/
def get_expired_records (now : Int) (db : List DlRecord) : List DlRecord :=
  db.filter (fun r => decide (r.expiry_timestamp < now))

/-- `remove_db_record` (cleanup.py 75-81): `DELETE FROM downloads WHERE id = ?`. -/
def remove_db_record (db : List DlRecord) (rid : String) : List DlRecord :=
  db.filter (fun r => !(rid == r.id))

/-- The loop of `cleanup_expired` (cleanup.py 94-104) over the pre-computed expired
list: delete the file; only when that succeeds, remove the row and count it. -/
def sweepLoop (fs : FileSys) (db : List DlRecord) :
    List DlRecord → List DlRecord × FileSys × Nat
  | [] => (db, fs, 0)
  | r :: rest =>
    let res := delete_file_safely fs r.filepath
    if res.2 then
      let out := sweepLoop res.1 (remove_db_record db r.id) rest
      (out.1, out.2.1, out.2.2 + 1)
    else
      sweepLoop res.1 db rest

/-- `cleanup_expired` (cleanup.py 83-107). -/
def cleanup_expired (now : Int) (db : List DlRecord) (fs : FileSys) :
    List DlRecord × FileSys × Nat :=
  sweepLoop fs db (get_expired_records now db)

/-- Whether `delete_file_safely` would report success on `p` (true unless the file
is present and `unlink` raises). -/
def delOK (fs : FileSys) (p : String) : Bool :=
  match fs p with
  | .present false => false
  | _ => true

/-- The sweep only ever turns deletable-present paths into absent ones. -/
def Evolved (fs0 fs : FileSys) : Prop :=
  ∀ q, fs q = fs0 q ∨ (fs0 q = .present true ∧ fs q = .absent)

/-- One entry of the staging directory as `cleanup_orphaned_files` sees it:
a name, an mtime, whether it is a regular file, and whether `unlink` succeeds. -/
structure OrphanFile where
  name : String
  mtime : Int
  isFile : Bool
  deletable : Bool
deriving DecidableEq

/-- `cleanup_orphaned_files` (cleanup.py 109-132): delete every regular staging file
strictly older than 3600 seconds; an `unlink` failure is logged and the file kept.
Returns the surviving directory listing and the count of deleted files. -/
def cleanup_orphaned_files (now : Int) : List OrphanFile → List OrphanFile × Nat
  | [] => ([], 0)
  | f :: rest =>
    let out := cleanup_orphaned_files now rest
    if f.isFile && decide (3600 < now - f.mtime) then
      if f.deletable then (out.1, out.2 + 1) else (f :: out.1, out.2)
    else (f :: out.1, out.2)

/-! ## Relations used to state the trace properties -/

/-- Forward order of the state machine. -/
def rankLe (a b : Task) : Prop := statRank a.status ≤ statRank b.status

/-- The left member of the pair is not terminal. -/
def nonTerminalFirst (a b : Task) : Prop :=
  a.status ≠ .ready ∧ a.status ≠ .error

/-- Any predecessor of a `downloading` snapshot is a `downloading` snapshot with no
larger progress. -/
def progStep (a b : Task) : Prop :=
  b.status = .downloading → a.status = .downloading ∧ a.progress ≤ b.progress

instance : IsTrans Task rankLe :=
  ⟨fun _ _ _ h1 h2 => le_trans h1 h2⟩

instance : IsTrans Task nonTerminalFirst :=
  ⟨fun _ _ _ h1 _ => h1⟩

instance : IsTrans Task progStep :=
  ⟨fun _ _ _ h1 h2 hc =>
    have hb := h2 hc
    have ha := h1 hb.1
    ⟨ha.1, le_trans ha.2 hb.2⟩⟩

/-! ## Concrete inputs used by witnesses and counterexamples -/

/-- A freshly created registry entry, as `/download` builds it (app.py 422-429). -/
def task0 : Task :=
  { status := .queued, progress := 0, url := "https://www.youtube.com/watch?v=x",
    quality := "best", format_type := "video+audio", video_id := some "x",
    title := none, filepath := none, filename := none, expiry := none, error := none }

/-- A registry holding only `task0` under id `t1`. -/
def oneTaskMap : TaskMap :=
  fun id => if id = "t1" then some task0 else none

/-- The empty registry. -/
def emptyRegistry : TaskMap := fun _ => none

/-- A finished-download row used by the status-query counterexample. -/
def cexRecord : DlRecord :=
  { id := "abc12345", video_id := some "vid", title := some "Some Video",
    filepath := "converted/abc12345_Some Video.mp4", duration_seconds := 30,
    expiry_timestamp := 7300, format_info := "best_video+audio", status := "ready",
    created_at := 100 }

/-- Environment of a successful single-transfer run: one 40% report, then the
transfer-complete report; the fetch stages one file; every later step succeeds. -/
def okEnv : FetchEnv :=
  { now := 0, events := [.progressEvt 40 100, .finished],
    createdFiles := [{ owner := "t1", rest := "clip.f140.mp4", unlinkFail := none }],
    extractResult := .ok ⟨some "x", some "My Clip", 30⟩,
    moveFail := none, saveFail := none }

/-- Environment of a two-transfer run (video stream then audio stream), as yt-dlp
produces for `bestvideo+bestaudio`: during the second transfer the hook reports 10%
while the task is already `converting`. -/
def twoStreamEnv : FetchEnv :=
  { now := 0,
    events := [.progressEvt 40 100, .finished, .progressEvt 10 100, .finished],
    createdFiles := [{ owner := "t1", rest := "clip.f140.mp4", unlinkFail := none }],
    extractResult := .ok ⟨some "x", some "My Clip", 30⟩,
    moveFail := none, saveFail := none }

/-- Environment of a fetch that raises after a 40% report, leaving a partial staging
file behind. -/
def failEnv : FetchEnv :=
  { now := 0, events := [.progressEvt 40 100],
    createdFiles := [⟨"t1", "clip.f140.mp4.part", none⟩],
    extractResult := .error "Network error", moveFail := none, saveFail := none }

/-- Initial system state with the one queued task and empty directories. -/
def st0 : SysState :=
  { tasks := oneTaskMap, staging := [], converted := [], db := [] }

/-- Expired row whose file is present and deletable. -/
def recA : DlRecord :=
  { id := "a1", video_id := some "va", title := some "A", filepath := "fileA",
    duration_seconds := 30, expiry_timestamp := 500, format_info := "f",
    status := "ready", created_at := 0 }

/-- Expired row whose file deletion raises an I/O error. -/
def recB : DlRecord :=
  { id := "b2", video_id := some "vb", title := some "B", filepath := "fileB",
    duration_seconds := 30, expiry_timestamp := 600, format_info := "f",
    status := "ready", created_at := 0 }

/-- Unexpired row. -/
def recC : DlRecord :=
  { id := "c3", video_id := some "vc", title := some "C", filepath := "fileC",
    duration_seconds := 30, expiry_timestamp := 9000, format_info := "f",
    status := "ready", created_at := 0 }

/-- Database holding the three rows above. -/
def db3 : List DlRecord := [recA, recB, recC]

/-- Disk state for the sweep witness: `fileA` deletable, `fileB` undeletable,
everything else absent. -/
def fs3 : FileSys :=
  fun p =>
    if p = "fileA" then .present true
    else if p = "fileB" then .present false
    else .absent

/-- A stale staging file whose deletion raises. -/
def stubbornOrphan : OrphanFile :=
  { name := "t9_part.mp4", mtime := 0, isFile := true, deletable := false }

/-! ## Theorems -/

/-- Claim C1: for every integer duration `d ≥ 0`, the retention policy
`calculate_expiry` is a pure total function and returns `max(7200, d)` seconds; in
particular it returns 7200 for `d = 0` and 10000 for `d = 10000`.  Totality of the
Lean function is the absence of failure modes. -/
theorem calculate_expiry_spec (d : Int) (h : 0 ≤ d) :
    calculate_expiry d = max 7200 d ∧
    calculate_expiry 0 = 7200 ∧ calculate_expiry 10000 = 10000 := by
  refine ⟨?_, by decide, by decide⟩
  norm_num [calculate_expiry]

theorem calculate_expiry_spec_witness :
    (0 : Int) ≤ 3 ∧
    (calculate_expiry 3 = max 7200 3 ∧
     calculate_expiry 0 = 7200 ∧ calculate_expiry 10000 = 10000) :=
  ⟨by decide, calculate_expiry_spec 3 (by decide)⟩

/-- Claim C2: every row written by `save_download_record` satisfies
`expiry_timestamp = created_at + max(7200, duration_seconds)`; with duration 30 the
difference is 7200, with duration 10800 it is 10800.  The fresh row is the one
appended at the end of the table. -/
theorem save_record_expiry_invariant (now : Int) (tid : String)
    (vid ttl : Option String) (fp fmt : String) (dur : Int) (db : List DlRecord) :
    ((save_download_record now tid vid ttl fp dur fmt db).1.getLast?.map
        (fun r => r.expiry_timestamp - r.created_at)) = some (max 7200 dur) ∧
    ((save_download_record now tid vid ttl fp 30 fmt db).1.getLast?.map
        (fun r => r.expiry_timestamp - r.created_at)) = some 7200 ∧
    ((save_download_record now tid vid ttl fp 10800 fmt db).1.getLast?.map
        (fun r => r.expiry_timestamp - r.created_at)) = some 10800 := by
  refine ⟨?_, ?_, ?_⟩ <;> simp [save_download_record, calculate_expiry]

/-- Auxiliary: a table whose ids are `Nodup` holds at most one row per id. -/
theorem countP_id_le_one : ∀ {l : List DlRecord},
    (l.map DlRecord.id).Nodup → ∀ i : String, l.countP (fun r => r.id == i) ≤ 1 := by
  intro l
  induction l with
  | nil => intro _ i; simp
  | cons hd tl ih =>
    intro h i
    rw [List.map_cons, List.nodup_cons] at h
    rw [List.countP_cons]
    by_cases hc : hd.id = i
    · have hzero : tl.countP (fun r => r.id == i) = 0 := by
        rw [List.countP_eq_zero]
        intro r hr hri
        rw [beq_iff_eq] at hri
        exact h.1 (List.mem_map.2 ⟨r, hr, by rw [hri, hc]⟩)
      simp [hc, hzero]
    · simp [hc]
      exact ih h.2 i

/-- Claim C10: `save_download_record` uses `INSERT OR REPLACE`, so writing a row
whose id already exists replaces it instead of failing or duplicating: the ids stay
`Nodup`, every id has at most one row, and a lookup of the task id now returns
exactly the freshly written row. -/
theorem record_replace_unique (now : Int) (tid : String) (vid ttl : Option String)
    (fp fmt : String) (dur : Int) (db : List DlRecord)
    (h : (db.map DlRecord.id).Nodup) :
    (((save_download_record now tid vid ttl fp dur fmt db).1.map DlRecord.id).Nodup) ∧
    (∀ i : String,
      (save_download_record now tid vid ttl fp dur fmt db).1.countP
        (fun r => r.id == i) ≤ 1) ∧
    get_download_record tid (save_download_record now tid vid ttl fp dur fmt db).1 =
      some { id := tid, video_id := vid, title := ttl, filepath := fp,
             duration_seconds := dur, expiry_timestamp := now + calculate_expiry dur,
             format_info := fmt, status := "ready", created_at := now } := by
  have h1 : ((db.filter (fun r => !(r.id == tid))).map DlRecord.id).Nodup :=
    h.sublist ((List.filter_sublist db).map DlRecord.id)
  have h2 : tid ∉ (db.filter (fun r => !(r.id == tid))).map DlRecord.id := by
    intro hmem
    obtain ⟨r, hr, hrid⟩ := List.mem_map.1 hmem
    have hf := (List.mem_filter.1 hr).2
    simp [hrid] at hf
  have hnodup :
      ((save_download_record now tid vid ttl fp dur fmt db).1.map DlRecord.id).Nodup := by
    simp only [save_download_record, List.map_append]
    rw [List.nodup_append]
    refine ⟨h1, List.nodup_singleton _, ?_⟩
    intro a ha hb
    simp only [List.map_cons, List.map_nil, List.mem_singleton] at hb
    exact h2 (hb ▸ ha)
  refine ⟨hnodup, fun i => countP_id_le_one hnodup i, ?_⟩
  rw [get_download_record]
  simp only [save_download_record]
  rw [List.find?_append]
  have hnone :
      (db.filter (fun r => !(r.id == tid))).find? (fun r => r.id == tid) = none := by
    rw [List.find?_eq_none]
    intro x hx
    have hf := (List.mem_filter.1 hx).2
    simp at hf ⊢
    exact hf
  rw [hnone]
  simp [List.find?]

theorem record_replace_unique_witness :
    (([cexRecord].map DlRecord.id).Nodup) ∧
    ((((save_download_record 0 "abc12345" none none "p" 30 "f" [cexRecord]).1.map
        DlRecord.id).Nodup) ∧
    (∀ i : String,
      (save_download_record 0 "abc12345" none none "p" 30 "f" [cexRecord]).1.countP
        (fun r => r.id == i) ≤ 1) ∧
    get_download_record "abc12345"
        (save_download_record 0 "abc12345" none none "p" 30 "f" [cexRecord]).1 =
      some { id := "abc12345", video_id := none, title := none, filepath := "p",
             duration_seconds := 30, expiry_timestamp := 0 + calculate_expiry 30,
             format_info := "f", status := "ready", created_at := 0 }) :=
  ⟨by decide,
   record_replace_unique 0 "abc12345" none none "p" "f" 30 [cexRecord] (by decide)⟩

/-- Claim C8 counterexample: for an id absent from the registry but present in the
database, the fallback response does report `ready`, but it carries neither a
`progress` nor a `filename` field, contradicting the claim that the per-spec status
fields (progress and, on Ready, title/filename/expiry) are all synthesized. -/
theorem status_fallback_counterexample :
    emptyRegistry "abc12345" = none ∧
    get_download_record "abc12345" [cexRecord] = some cexRecord ∧
    (get_status emptyRegistry [cexRecord] "abc12345").status = some Status.ready ∧
    (get_status emptyRegistry [cexRecord] "abc12345").progress = none ∧
    (get_status emptyRegistry [cexRecord] "abc12345").filename = none :=
  ⟨rfl, by decide, by decide, by decide, by decide⟩

/-- Claim C8 (amended): the status query reads the registry first and falls back to
the database: an id unknown to the registry with a stored row is reported `Ready`
synthesized from the row — but only with the title and expiry fields, without
progress or filename; an id unknown to both yields the 404 `Task not found` payload;
an id in the registry is answered from the registry entry.  The query is a total
function, so it never raises. -/
theorem status_fallback (tasks : TaskMap) (db : List DlRecord) (tid : String) :
    (∀ r, tasks tid = none → get_download_record tid db = some r →
      get_status tasks db tid =
        { httpCode := 200, errMsg := none, status := some .ready, progress := none,
          title := some r.title, filename := none,
          expiry := some (some r.expiry_timestamp) }) ∧
    (tasks tid = none → get_download_record tid db = none →
      get_status tasks db tid =
        { httpCode := 404, errMsg := some (some "Task not found"), status := none,
          progress := none, title := none, filename := none, expiry := none }) ∧
    (∀ t, tasks tid = some t →
      (get_status tasks db tid).status = some t.status ∧
      (get_status tasks db tid).progress = some t.progress) := by
  refine ⟨?_, ?_, ?_⟩
  · intro r h1 h2
    simp [get_status, h1, h2]
  · intro h1 h2
    simp [get_status, h1, h2]
  · intro t h1
    cases ht : t.status <;> simp [get_status, h1, ht]

theorem status_fallback_witness :
    emptyRegistry "zz" = none ∧ get_download_record "zz" [] = none ∧
    get_status emptyRegistry [] "zz" =
      { httpCode := 404, errMsg := some (some "Task not found"), status := none,
        progress := none, title := none, filename := none, expiry := none } :=
  ⟨rfl, rfl, (status_fallback emptyRegistry [] "zz").2.1 rfl rfl⟩

/-- Claim C9 counterexample: a regular staging file 10000 seconds old whose unlink
raises survives the orphan sweep, contradicting the claim that every staging file
older than 3600 seconds is deleted unconditionally. -/
theorem orphan_sweep_counterexample :
    (3600 : Int) < 10000 - stubbornOrphan.mtime ∧ stubbornOrphan.isFile = true ∧
    (cleanup_orphaned_files 10000 [stubbornOrphan]).1 = [stubbornOrphan] :=
  ⟨by decide, rfl, by decide⟩

/-- Claim C9 (amended): the orphan sweep deletes exactly the regular staging files
strictly older than 3600 seconds whose unlink succeeds; younger files, directories,
and files whose deletion raises survive the sweep unchanged (a failed deletion is
only logged and retried on a later sweep). -/
theorem orphan_sweep_filter (now : Int) (files : List OrphanFile) :
    (cleanup_orphaned_files now files).1 =
      files.filter
        (fun f => !(f.isFile && decide (3600 < now - f.mtime) && f.deletable)) := by
  induction files with
  | nil => rfl
  | cons f rest ih =>
    simp only [cleanup_orphaned_files, List.filter_cons]
    by_cases h1 : f.isFile && decide (3600 < now - f.mtime)
    · by_cases h2 : f.deletable
      · simp [h1, h2, ih]
      · simp only [h1, if_true]
        simp only [Bool.not_eq_true] at h2
        simp [h2, ih, h1]
    · simp only [Bool.not_eq_true] at h1
      simp [h1, ih]

theorem evolved_refl (fs : FileSys) : Evolved fs fs := fun _ => Or.inl rfl

theorem evolved_trans {fs0 fs1 fs2 : FileSys} (h1 : Evolved fs0 fs1)
    (h2 : Evolved fs1 fs2) : Evolved fs0 fs2 := by
  intro q
  rcases h2 q with h | ⟨ha, hb⟩
  · rw [h]; exact h1 q
  · rcases h1 q with h' | ⟨ha', hb'⟩
    · rw [h'] at ha; exact Or.inr ⟨ha, hb⟩
    · rw [hb'] at ha; exact FileStatus.noConfusion ha

theorem dfs_flag (fs : FileSys) (p : String) :
    (delete_file_safely fs p).2 = delOK fs p := by
  cases h : fs p with
  | absent => simp [delete_file_safely, delOK, h]
  | present b => cases b <;> simp [delete_file_safely, delOK, h]

theorem dfs_evolved (fs : FileSys) (p : String) :
    Evolved fs (delete_file_safely fs p).1 := by
  intro q
  cases h : fs p with
  | absent => simp [delete_file_safely, h]
  | present b =>
    cases b
    · simp [delete_file_safely, h]
    · simp only [delete_file_safely, h]
      by_cases hq : q = p
      · subst hq
        exact Or.inr ⟨h, by simp⟩
      · simp [hq]

theorem dfs_fail_eq (fs : FileSys) (p : String) (h : delOK fs p = false) :
    (delete_file_safely fs p).1 = fs := by
  unfold delOK at h
  cases hp : fs p with
  | absent => simp [delete_file_safely, hp]
  | present b =>
    cases b
    · simp [delete_file_safely, hp]
    · rw [hp] at h
      simp at h

theorem delOK_evolved {fs0 fs : FileSys} (h : Evolved fs0 fs) (p : String) :
    delOK fs p = delOK fs0 p := by
  rcases h p with h' | ⟨h1, h2⟩
  · unfold delOK; rw [h']
  · unfold delOK; rw [h1, h2]

theorem delOK_iff (fs : FileSys) (p : String) :
    delOK fs p = true ↔ fs p ≠ .present false := by
  unfold delOK
  cases h : fs p with
  | absent => simp
  | present b => cases b <;> simp

/-- The expired-sweep loop characterized as a filter: a row survives unless some
expired row with its id had a successful (or vacuous) file deletion; and the disk
only loses deletable files. -/
theorem sweepLoop_spec (fs0 : FileSys) :
    ∀ (exp db : List DlRecord) (fs : FileSys), Evolved fs0 fs →
      (sweepLoop fs db exp).1 =
        db.filter
          (fun x => !(exp.any (fun e => e.id == x.id && delOK fs0 e.filepath))) ∧
      Evolved fs0 (sweepLoop fs db exp).2.1 := by
  intro exp
  induction exp with
  | nil =>
    intro db fs hev
    refine ⟨by simp [sweepLoop], hev⟩
  | cons r rest ih =>
    intro db fs hev
    have hflag : (delete_file_safely fs r.filepath).2 = delOK fs0 r.filepath := by
      rw [dfs_flag, delOK_evolved hev]
    have hev2 : Evolved fs0 (delete_file_safely fs r.filepath).1 :=
      evolved_trans hev (dfs_evolved fs r.filepath)
    by_cases hok : delOK fs0 r.filepath = true
    · have ihh := ih (remove_db_record db r.id)
        (delete_file_safely fs r.filepath).1 hev2
      constructor
      · simp only [sweepLoop, hflag, hok, if_true]
        rw [ihh.1, remove_db_record, List.filter_filter]
        apply List.filter_congr
        intro x hx
        cases hb1 : (r.id == x.id) <;>
          cases hb2 : rest.any (fun e => e.id == x.id && delOK fs0 e.filepath) <;>
            simp [hb1, hb2, hok]
      · simp only [sweepLoop, hflag, hok, if_true]
        exact ihh.2
    · rw [Bool.not_eq_true] at hok
      have hfs : (delete_file_safely fs r.filepath).1 = fs := by
        apply dfs_fail_eq
        rw [delOK_evolved hev, hok]
      have ihh := ih db fs hev
      constructor
      · simp only [sweepLoop, hflag, hok, Bool.false_eq_true, if_false, hfs]
        rw [ihh.1]
        apply List.filter_congr
        intro x hx
        simp [hok]
      · simp only [sweepLoop, hflag, hok, Bool.false_eq_true, if_false, hfs]
        exact ihh.2

theorem id_injective : ∀ {db : List DlRecord}, (db.map DlRecord.id).Nodup →
    ∀ a ∈ db, ∀ b ∈ db, a.id = b.id → a = b := by
  intro db
  induction db with
  | nil => intro _ a ha; exact absurd ha (List.not_mem_nil a)
  | cons hd tl ih =>
    intro h a ha b hb hab
    rw [List.map_cons, List.nodup_cons] at h
    rcases List.mem_cons.1 ha with rfl | ha'
    · rcases List.mem_cons.1 hb with rfl | hb'
      · rfl
      · exact absurd (List.mem_map.2 ⟨b, hb', hab.symm⟩) h.1
    · rcases List.mem_cons.1 hb with rfl | hb'
      · exact absurd (List.mem_map.2 ⟨a, ha', hab⟩) h.1
      · exact ih h.2 a ha' b hb' hab

/-- Claim C6: in the expired sweep, a row (of a table with `PRIMARY KEY` ids) is
removed from the store iff deleting its file succeeded or the file was already
absent; a row whose file deletion raises an I/O error is still present after the
sweep, with its file untouched; unexpired rows always survive. -/
theorem expired_sweep_safety (now : Int) (db : List DlRecord) (fs : FileSys)
    (h : (db.map DlRecord.id).Nodup) :
    ∀ r ∈ db,
      (r.expiry_timestamp < now →
        ((r ∉ (cleanup_expired now db fs).1 ↔ fs r.filepath ≠ .present false) ∧
         (fs r.filepath = .present false →
            r ∈ (cleanup_expired now db fs).1 ∧
            (cleanup_expired now db fs).2.1 r.filepath = .present false))) ∧
      (¬ r.expiry_timestamp < now → r ∈ (cleanup_expired now db fs).1) := by
  have hspec := sweepLoop_spec fs (get_expired_records now db) db fs (evolved_refl fs)
  intro r hr
  have hany : (get_expired_records now db).any
        (fun e => e.id == r.id && delOK fs e.filepath) = true ↔
      (r.expiry_timestamp < now ∧ delOK fs r.filepath = true) := by
    constructor
    · intro ha
      obtain ⟨e, he, hcond⟩ := List.any_eq_true.1 ha
      have he' := List.mem_filter.1 he
      rw [Bool.and_eq_true, beq_iff_eq] at hcond
      have : e = r := id_injective h e he'.1 r hr hcond.1
      subst this
      exact ⟨by simpa using he'.2, hcond.2⟩
    · intro ⟨h1, h2⟩
      apply List.any_eq_true.2
      refine ⟨r, List.mem_filter.2 ⟨hr, by simpa using h1⟩, ?_⟩
      rw [Bool.and_eq_true, beq_iff_eq]
      exact ⟨rfl, h2⟩
  have hmem : r ∈ (cleanup_expired now db fs).1 ↔
      ¬ (r.expiry_timestamp < now ∧ delOK fs r.filepath = true) := by
    rw [cleanup_expired, hspec.1, List.mem_filter]
    constructor
    · intro ⟨_, hpred⟩
      rw [Bool.not_eq_true'] at hpred
      intro hc
      rw [hany.2 hc] at hpred
      cases hpred
    · intro hc
      refine ⟨hr, ?_⟩
      rw [Bool.not_eq_true']
      cases hae : (get_expired_records now db).any
          (fun e => e.id == r.id && delOK fs e.filepath)
      · rfl
      · exact absurd (hany.1 hae) hc
  refine ⟨fun hexp => ⟨?_, fun hio => ⟨?_, ?_⟩⟩, fun hnexp => ?_⟩
  · simp [hmem, delOK_iff, hexp]
  · rw [hmem]
    intro hc
    exact (delOK_iff fs r.filepath).1 hc.2 hio
  · rcases hspec.2 r.filepath with h' | ⟨h1, _⟩
    · rw [cleanup_expired, h']
      exact hio
    · rw [hio] at h1
      exact absurd h1 (by simp)
  · rw [hmem]
    intro hc
    exact hnexp hc.1

theorem expired_sweep_safety_witness :
    ((db3.map DlRecord.id).Nodup) ∧
    (∀ r ∈ db3,
      (r.expiry_timestamp < 1000 →
        ((r ∉ (cleanup_expired 1000 db3 fs3).1 ↔ fs3 r.filepath ≠ .present false) ∧
         (fs3 r.filepath = .present false →
            r ∈ (cleanup_expired 1000 db3 fs3).1 ∧
            (cleanup_expired 1000 db3 fs3).2.1 r.filepath = .present false))) ∧
      (¬ r.expiry_timestamp < 1000 → r ∈ (cleanup_expired 1000 db3 fs3).1)) :=
  ⟨by decide, expired_sweep_safety 1000 db3 fs3 (by decide)⟩

theorem runHooks_cons (e : HookEvent) (es : List HookEvent) (t : Task) :
    runHooks (e :: es) t =
      ((runHooks es (progress_hook e t)).1,
        progress_hook e t :: (runHooks es (progress_hook e t)).2) := rfl

theorem progress_hook_status_cases (e : HookEvent) (t : Task) :
    (progress_hook e t).status = t.status ∨
      (progress_hook e t).status = .converting := by
  cases e with
  | progressEvt d T =>
    by_cases hT : 0 < T <;> simp [progress_hook, hT]
  | finished => right; rfl
  | otherEvt => left; rfl

theorem progress_hook_conv (e : HookEvent) (t : Task) (h : t.status = .converting) :
    (progress_hook e t).status = .converting := by
  rcases progress_hook_status_cases e t with h' | h'
  · rw [h', h]
  · exact h'

theorem progress_hook_dlcv (e : HookEvent) (t : Task)
    (h : t.status = .downloading ∨ t.status = .converting) :
    (progress_hook e t).status = .downloading ∨
      (progress_hook e t).status = .converting := by
  rcases progress_hook_status_cases e t with h' | h'
  · rw [h']; exact h
  · right; exact h'

theorem runHooks_conv (es : List HookEvent) :
    ∀ t : Task, t.status = .converting →
      (runHooks es t).1.status = .converting ∧
      ∀ s ∈ (runHooks es t).2, s.status = .converting := by
  induction es with
  | nil => intro t ht; exact ⟨ht, by simp [runHooks]⟩
  | cons e es ih =>
    intro t ht
    rw [runHooks_cons]
    have h2 := progress_hook_conv e t ht
    have hrec := ih (progress_hook e t) h2
    refine ⟨hrec.1, ?_⟩
    intro s hs
    rcases List.mem_cons.1 hs with rfl | hs'
    · exact h2
    · exact hrec.2 s hs'

theorem runHooks_dlcv (es : List HookEvent) :
    ∀ t : Task, (t.status = .downloading ∨ t.status = .converting) →
      ((runHooks es t).1.status = .downloading ∨
        (runHooks es t).1.status = .converting) ∧
      ∀ s ∈ (runHooks es t).2,
        s.status = .downloading ∨ s.status = .converting := by
  induction es with
  | nil => intro t ht; exact ⟨ht, by simp [runHooks]⟩
  | cons e es ih =>
    intro t ht
    rw [runHooks_cons]
    have h2 := progress_hook_dlcv e t ht
    have hrec := ih (progress_hook e t) h2
    refine ⟨hrec.1, ?_⟩
    intro s hs
    rcases List.mem_cons.1 hs with rfl | hs'
    · exact h2
    · exact hrec.2 s hs'

theorem rankLe_hook (e : HookEvent) (t : Task)
    (h : t.status = .downloading ∨ t.status = .converting) :
    rankLe t (progress_hook e t) := by
  rcases progress_hook_status_cases e t with h' | h'
  · unfold rankLe
    rw [h']
  · unfold rankLe
    rw [h']
    rcases h with h'' | h''
    · rw [h'']
      decide
    · rw [h'']

theorem runHooks_chain_rank (es : List HookEvent) :
    ∀ t : Task, (t.status = .downloading ∨ t.status = .converting) →
      List.Chain' rankLe (t :: (runHooks es t).2) := by
  induction es with
  | nil => intro t _; simp [runHooks]
  | cons e es ih =>
    intro t ht
    simp only [runHooks_cons]
    rw [List.chain'_cons]
    exact ⟨rankLe_hook e t ht, ih (progress_hook e t) (progress_hook_dlcv e t ht)⟩

theorem div_mul_le_100 {d T : Nat} (h : d ≤ T) (hT : 0 < T) : d * 100 / T ≤ 100 := by
  calc d * 100 / T ≤ T * 100 / T :=
        Nat.div_le_div_right (Nat.mul_le_mul_right _ h)
  _ = 100 := Nat.mul_div_cancel_left 100 hT

theorem progress_hook_bound (e : HookEvent) (t : Task)
    (he : ∀ d T, e = .progressEvt d T → 0 < T → d ≤ T)
    (h : t.progress ≤ 100) : (progress_hook e t).progress ≤ 100 := by
  cases e with
  | progressEvt d T =>
    by_cases hT : 0 < T
    · simp only [progress_hook, hT, if_true]
      exact div_mul_le_100 (he d T rfl hT) hT
    · simpa [progress_hook, hT] using h
  | finished => simp [progress_hook]
  | otherEvt => simpa [progress_hook] using h

theorem runHooks_bound (es : List HookEvent) :
    ∀ t : Task, (∀ e ∈ es, ∀ d T, e = .progressEvt d T → 0 < T → d ≤ T) →
      t.progress ≤ 100 →
      (runHooks es t).1.progress ≤ 100 ∧
      ∀ s ∈ (runHooks es t).2, s.progress ≤ 100 := by
  induction es with
  | nil => intro t _ h; exact ⟨h, by simp [runHooks]⟩
  | cons e es ih =>
    intro t hb h
    simp only [runHooks_cons]
    have h2 : (progress_hook e t).progress ≤ 100 :=
      progress_hook_bound e t (hb e (List.mem_cons_self e es)) h
    have hrec := ih (progress_hook e t)
      (fun e' he' => hb e' (List.mem_cons_of_mem _ he')) h2
    refine ⟨hrec.1, ?_⟩
    intro s hs
    rcases List.mem_cons.1 hs with rfl | hs'
    · exact h2
    · exact hrec.2 s hs'

theorem runHooks_fst_append (l1 l2 : List HookEvent) :
    ∀ t : Task, (runHooks (l1 ++ l2) t).1 = (runHooks l2 (runHooks l1 t).1).1 := by
  induction l1 with
  | nil => intro t; simp [runHooks]
  | cons e es ih =>
    intro t
    simp only [List.cons_append, runHooks_cons]
    exact ih (progress_hook e t)

theorem monoPairs_cons_cons {a b : Nat × Nat} {rest : List (Nat × Nat)}
    (h : monoPairs (a :: b :: rest) = true) :
    a.1 ≤ b.1 ∧ a.2 = b.2 ∧ monoPairs (b :: rest) = true := by
  simp only [monoPairs, Bool.and_eq_true, decide_eq_true_eq, beq_iff_eq] at h
  exact ⟨h.1.1, h.1.2, h.2⟩

theorem monoPairs_tail {a : Nat × Nat} {l : List (Nat × Nat)}
    (h : monoPairs (a :: l) = true) : monoPairs l = true := by
  cases l with
  | nil => rfl
  | cons b rest => exact (monoPairs_cons_cons h).2.2

theorem chain_progStep_of_conv {l : List Task}
    (h : ∀ s ∈ l, s.status = .converting) : List.Chain' progStep l := by
  induction l with
  | nil => simp
  | cons a rest ih =>
    cases rest with
    | nil => simp
    | cons b rest2 =>
      rw [List.chain'_cons]
      refine ⟨?_, ih ?_⟩
      · intro hb
        rw [h b (List.mem_cons_of_mem _ (List.mem_cons_self b rest2))] at hb
        exact Status.noConfusion hb
      · intro s hs
        exact h s (List.mem_cons_of_mem _ hs)

theorem runHooks_chain_prog (es : List HookEvent) :
    ∀ t : Task, t.status = .downloading →
      (∀ d T rest, knownProgressPairs es = (d, T) :: rest →
        t.progress ≤ d * 100 / T) →
      monoPairs (knownProgressPairs es) = true →
      List.Chain' progStep (t :: (runHooks es t).2) := by
  induction es with
  | nil => intro t _ _ _; simp [runHooks]
  | cons e es ih =>
    intro t ht hhead hmono
    simp only [runHooks_cons]
    cases e with
    | finished =>
      rw [List.chain'_cons]
      constructor
      · intro hb
        exact absurd hb (by simp [progress_hook])
      · apply chain_progStep_of_conv
        intro s hs
        rcases List.mem_cons.1 hs with rfl | hs'
        · rfl
        · exact (runHooks_conv es (progress_hook .finished t) rfl).2 s hs'
    | otherEvt =>
      simp only [progress_hook]
      rw [List.chain'_cons]
      exact ⟨fun hb => ⟨hb, le_rfl⟩, ih t ht hhead hmono⟩
    | progressEvt d T =>
      by_cases hT : 0 < T
      · have hkpp : knownProgressPairs (HookEvent.progressEvt d T :: es) =
            (d, T) :: knownProgressPairs es := by
          simp [knownProgressPairs, hT]
        have ht2 : (progress_hook (HookEvent.progressEvt d T) t).status =
            .downloading := by
          simpa [progress_hook, hT] using ht
        have hp2 : (progress_hook (HookEvent.progressEvt d T) t).progress =
            d * 100 / T := by
          simp [progress_hook, hT]
        rw [List.chain'_cons]
        constructor
        · intro _
          refine ⟨ht, ?_⟩
          rw [hp2]
          exact hhead d T (knownProgressPairs es) hkpp
        · apply ih (progress_hook (HookEvent.progressEvt d T) t) ht2
          · intro d' T' rest' hk
            rw [hp2]
            rw [hkpp, hk] at hmono
            obtain ⟨hdd, hTT, _⟩ := monoPairs_cons_cons hmono
            simp only at hdd hTT
            rw [hTT]
            exact Nat.div_le_div_right (Nat.mul_le_mul_right _ hdd)
          · rw [hkpp] at hmono
            exact monoPairs_tail hmono
      · have hkpp : knownProgressPairs (HookEvent.progressEvt d T :: es) =
            knownProgressPairs es := by
          simp [knownProgressPairs, hT]
        have ht2 : progress_hook (HookEvent.progressEvt d T) t = t := by
          simp [progress_hook, hT]
        rw [ht2, List.chain'_cons]
        refine ⟨fun hb => ⟨hb, le_rfl⟩, ?_⟩
        apply ih t ht
        · intro d' T' rest' hk
          exact hhead d' T' rest' (by rw [hkpp, hk])
        · rw [hkpp] at hmono
          exact hmono

theorem map_eq_singleton {α β : Type} {f : α → β} {l : List α} {b : β}
    (h : l.map f = [b]) : ∃ a, l = [a] ∧ f a = b := by
  cases l with
  | nil => simp at h
  | cons x xs =>
    cases xs with
    | nil =>
      simp at h
      exact ⟨x, rfl, h⟩
    | cons y ys => simp at h

theorem map_eq_pair {α β : Type} {f : α → β} {l : List α} {b c : β}
    (h : l.map f = [b, c]) : ∃ a d, l = [a, d] ∧ f a = b ∧ f d = c := by
  cases l with
  | nil => simp at h
  | cons x xs =>
    cases xs with
    | nil => simp at h
    | cons y ys =>
      cases ys with
      | nil =>
        simp at h
        exact ⟨x, y, rfl, h.1, h.2⟩
      | cons z zs => simp at h

/-- Structure of the `try:` block's outcome: either it fails before the converting
mark (trace is the hook snapshots), or it fails after it (trace additionally ends
with the converting snapshot), or it succeeds (the trace ends with the converting
snapshot and a ready snapshot whose progress equals the hooks-final progress). -/
theorem runTask_shape (env : FetchEnv) (tid url q fmt : String) (t0 : Task)
    (stg : List StagedFile) (cv : List String) (db : List DlRecord) :
    (∃ msg, (runTask env tid url q fmt t0 stg cv db).err = some msg ∧
      (runTask env tid url q fmt t0 stg cv db).task =
        (runHooks env.events (initTask t0)).1 ∧
      (runTask env tid url q fmt t0 stg cv db).trace =
        initTask t0 :: (runHooks env.events (initTask t0)).2) ∨
    (∃ msg, (runTask env tid url q fmt t0 stg cv db).err = some msg ∧
      (runTask env tid url q fmt t0 stg cv db).task =
        { (runHooks env.events (initTask t0)).1 with status := .converting } ∧
      (runTask env tid url q fmt t0 stg cv db).trace =
        initTask t0 :: (runHooks env.events (initTask t0)).2 ++
          [{ (runHooks env.events (initTask t0)).1 with status := .converting }]) ∨
    ((runTask env tid url q fmt t0 stg cv db).err = none ∧
      (runTask env tid url q fmt t0 stg cv db).task.status = .ready ∧
      (runTask env tid url q fmt t0 stg cv db).task.progress =
        (runHooks env.events (initTask t0)).1.progress ∧
      (runTask env tid url q fmt t0 stg cv db).trace =
        initTask t0 :: (runHooks env.events (initTask t0)).2 ++
          [{ (runHooks env.events (initTask t0)).1 with status := .converting },
           (runTask env tid url q fmt t0 stg cv db).task]) := by
  cases hE : env.extractResult with
  | error msg =>
    left
    exact ⟨msg, by simp [runTask, hE], by simp [runTask, hE], by simp [runTask, hE]⟩
  | ok info =>
    cases hF : (stg ++ env.createdFiles).filter (fun f => f.owner == tid) with
    | nil =>
      right; left
      exact ⟨"Downloaded file not found", by simp [runTask, hE, hF],
        by simp [runTask, hE, hF], by simp [runTask, hE, hF]⟩
    | cons src rest =>
      cases hM : env.moveFail with
      | some mm =>
        right; left
        exact ⟨mm, by simp [runTask, hE, hF, hM], by simp [runTask, hE, hF, hM],
          by simp [runTask, hE, hF, hM]⟩
      | none =>
        cases hC : (deleteLoop tid ((stg ++ env.createdFiles).eraseP
            (fun f => f.owner == tid))).2 with
        | some mm =>
          right; left
          exact ⟨mm, by simp [runTask, hE, hF, hM, hC],
            by simp [runTask, hE, hF, hM, hC], by simp [runTask, hE, hF, hM, hC]⟩
        | none =>
          cases hS : env.saveFail with
          | some mm =>
            right; left
            exact ⟨mm, by simp [runTask, hE, hF, hM, hC, hS],
              by simp [runTask, hE, hF, hM, hC, hS],
              by simp [runTask, hE, hF, hM, hC, hS]⟩
          | none =>
            right; right
            refine ⟨by simp [runTask, hE, hF, hM, hC, hS],
              by simp [runTask, hE, hF, hM, hC, hS],
              by simp [runTask, hE, hF, hM, hC, hS],
              by simp [runTask, hE, hF, hM, hC, hS]⟩

/-- The full snapshot trace of one `download_video` run: the downloading snapshot,
the hook snapshots, then a tail `m` that is an error snapshot, or the converting
snapshot followed by an error snapshot, or the converting snapshot followed by the
ready snapshot; every tail element keeps the hooks-final progress. -/
theorem trace_shape (env : FetchEnv) (tid url q fmt : String) (st : SysState)
    (t0 : Task) (h : st.tasks tid = some t0) :
    ∃ m : List Task,
      (download_video env tid url q fmt st).2 =
        initTask t0 :: (runHooks env.events (initTask t0)).2 ++ m ∧
      (m.map Task.status = [Status.error] ∨
       m.map Task.status = [Status.converting, Status.error] ∨
       m.map Task.status = [Status.converting, Status.ready]) ∧
      (∀ x ∈ m, x.progress = (runHooks env.events (initTask t0)).1.progress) := by
  rcases runTask_shape env tid url q fmt t0 st.staging st.converted st.db with
    ⟨msg, he, hta, htr⟩ | ⟨msg, he, hta, htr⟩ | ⟨he, hs1, hs2, htr⟩
  · refine ⟨[{ (runHooks env.events (initTask t0)).1 with
        status := .error, error := some msg }], ?_, ?_, ?_⟩
    · simp [download_video, h, he, hta, htr]
    · simp
    · intro x hx
      rw [List.mem_singleton] at hx
      subst hx
      rfl
  · refine ⟨[{ (runHooks env.events (initTask t0)).1 with status := .converting },
        { { (runHooks env.events (initTask t0)).1 with status := .converting } with
          status := .error, error := some msg }], ?_, ?_, ?_⟩
    · simp [download_video, h, he, hta, htr]
    · simp
    · intro x hx
      rcases List.mem_cons.1 hx with rfl | hx'
      · rfl
      · rw [List.mem_singleton] at hx'
        subst hx'
        rfl
  · refine ⟨[{ (runHooks env.events (initTask t0)).1 with status := .converting },
        (runTask env tid url q fmt t0 st.staging st.converted st.db).task],
        ?_, ?_, ?_⟩
    · simp only [download_video, h, he, htr]
    · simp [hs1]
    · intro x hx
      rcases List.mem_cons.1 hx with rfl | hx'
      · rfl
      · rw [List.mem_singleton] at hx'
        subst hx'
        exact hs2

theorem mem_of_getLast? {α : Type} {l : List α} {x : α} (h : x ∈ l.getLast?) :
    x ∈ l := by
  obtain ⟨hne, hx⟩ := List.mem_getLast?_eq_getLast h
  rw [hx]
  exact List.getLast_mem hne

theorem chain_nonTerminal_of_all {l : List Task}
    (h : ∀ x ∈ l, x.status ≠ .ready ∧ x.status ≠ .error) :
    List.Chain' nonTerminalFirst l := by
  induction l with
  | nil => simp
  | cons a rest ih =>
    cases rest with
    | nil => simp
    | cons b r2 =>
      rw [List.chain'_cons]
      exact ⟨h a (List.mem_cons_self a _),
        ih (fun x hx => h x (List.mem_cons_of_mem _ hx))⟩

theorem tail_head_status {m : List Task}
    (hstat : m.map Task.status = [Status.error] ∨
      m.map Task.status = [Status.converting, Status.error] ∨
      m.map Task.status = [Status.converting, Status.ready]) :
    ∀ y, m.head? = some y → (y.status = .error ∨ y.status = .converting) := by
  intro y hy
  rcases hstat with h1 | h1 | h1
  · obtain ⟨a, rfl, ha⟩ := map_eq_singleton h1
    simp only [List.head?_cons, Option.some.injEq] at hy
    subst hy
    left; exact ha
  · obtain ⟨a, d, rfl, ha, _⟩ := map_eq_pair h1
    simp only [List.head?_cons, Option.some.injEq] at hy
    subst hy
    right; exact ha
  · obtain ⟨a, d, rfl, ha, _⟩ := map_eq_pair h1
    simp only [List.head?_cons, Option.some.injEq] at hy
    subst hy
    right; exact ha

/-- Claim C3: whatever exception is raised at whatever step of the worker body (for
a task that exists in the registry), the worker catches it: the task transitions to
`error` with the exception's message stored as the cause, and no other registry
entry is touched — so one task's failure has no effect on other tasks, and the
exception never escapes to the pool (`download_video` is a total function). -/
theorem worker_error_isolation (env : FetchEnv) (tid url q fmt : String)
    (st : SysState) (t0 : Task) (h : st.tasks tid = some t0) :
    (∀ id2, id2 ≠ tid →
      (download_video env tid url q fmt st).1.tasks id2 = st.tasks id2) ∧
    (∀ msg,
      (runTask env tid url q fmt t0 st.staging st.converted st.db).err = some msg →
      ((download_video env tid url q fmt st).1.tasks tid).map Task.status =
        some Status.error ∧
      ((download_video env tid url q fmt st).1.tasks tid).map Task.error =
        some (some msg)) := by
  constructor
  · intro id2 hne
    simp only [download_video, h]
    cases he : (runTask env tid url q fmt t0 st.staging st.converted st.db).err with
    | none => simp [setTask, hne]
    | some msg => simp [setTask, hne]
  · intro msg he
    simp only [download_video, h, he]
    simp [setTask]

theorem worker_error_isolation_witness :
    st0.tasks "t1" = some task0 ∧
    ((∀ id2, id2 ≠ "t1" →
      (download_video failEnv "t1" "u" "best" "video+audio" st0).1.tasks id2 =
        st0.tasks id2) ∧
     (∀ msg,
       (runTask failEnv "t1" "u" "best" "video+audio" task0 st0.staging
         st0.converted st0.db).err = some msg →
       ((download_video failEnv "t1" "u" "best" "video+audio" st0).1.tasks
         "t1").map Task.status = some Status.error ∧
       ((download_video failEnv "t1" "u" "best" "video+audio" st0).1.tasks
         "t1").map Task.error = some (some msg))) :=
  ⟨rfl, worker_error_isolation failEnv "t1" "u" "best" "video+audio" st0 task0 rfl⟩

/-- Claim C7 (amended): a fetch that raises partway leaves the task in `Error` with
the raised message and progress frozen at the last value the hooks reported; but the
partial files the fetch created in the staging area are not removed by the failure
path — they remain until the orphan sweep reclaims them. -/
theorem fetch_failure_leaves_staging (env : FetchEnv) (tid url q fmt : String)
    (st : SysState) (t0 : Task) (msg : String) (h : st.tasks tid = some t0)
    (hx : env.extractResult = .error msg) :
    ((download_video env tid url q fmt st).1.tasks tid).map Task.status =
      some Status.error ∧
    ((download_video env tid url q fmt st).1.tasks tid).map Task.error =
      some (some msg) ∧
    ((download_video env tid url q fmt st).1.tasks tid).map Task.progress =
      some (runHooks env.events (initTask t0)).1.progress ∧
    (download_video env tid url q fmt st).1.staging =
      st.staging ++ env.createdFiles := by
  simp only [download_video, h]
  simp [runTask, hx, setTask]

theorem fetch_failure_leaves_staging_witness :
    st0.tasks "t1" = some task0 ∧
    failEnv.extractResult = .error "Network error" ∧
    (((download_video failEnv "t1" "u" "best" "video+audio" st0).1.tasks "t1").map
        Task.status = some Status.error ∧
     ((download_video failEnv "t1" "u" "best" "video+audio" st0).1.tasks "t1").map
        Task.error = some (some "Network error") ∧
     ((download_video failEnv "t1" "u" "best" "video+audio" st0).1.tasks "t1").map
        Task.progress =
       some (runHooks failEnv.events (initTask task0)).1.progress ∧
     (download_video failEnv "t1" "u" "best" "video+audio" st0).1.staging =
       st0.staging ++ failEnv.createdFiles) :=
  ⟨rfl, rfl, fetch_failure_leaves_staging failEnv "t1" "u" "best" "video+audio" st0
    task0 "Network error" rfl rfl⟩

/-- Claim C7 counterexample: in `failEnv` the fetch raises after a 40% report; the
task ends in `Error` with progress 40, as claimed, but a partial file owned by the
task is still in the staging (downloaded) area, contradicting the claim that no
owned file is left there. -/
theorem fetch_failure_counterexample :
    ((download_video failEnv "t1" "u" "best" "video+audio" st0).1.tasks "t1").map
      Task.status = some Status.error ∧
    ((download_video failEnv "t1" "u" "best" "video+audio" st0).1.tasks "t1").map
      Task.progress = some 40 ∧
    (download_video failEnv "t1" "u" "best" "video+audio" st0).1.staging.any
      (fun f => f.owner == "t1") = true :=
  ⟨by decide, by decide, by decide⟩

/-- Claim C4: in the worker's snapshot trace, `Ready` and `Error` are absorbing
(every later snapshot keeps them) and no snapshot after a `Converting` one is in
`Running` (status `downloading`) again.  Status queries are read-only by
construction: `get_status` returns a response without modifying the registry. -/
theorem terminal_states_absorbing (env : FetchEnv) (tid url q fmt : String)
    (st : SysState) (t0 : Task) (h : st.tasks tid = some t0) :
    List.Pairwise
      (fun a b : Task =>
        (a.status = .ready → b.status = .ready) ∧
        (a.status = .error → b.status = .error) ∧
        (a.status = .converting → b.status ≠ .downloading))
      (download_video env tid url q fmt st).2 := by
  obtain ⟨m, htr, hstat, hprog⟩ := trace_shape env tid url q fmt st t0 h
  rw [htr]
  have hpre : ∀ x ∈ initTask t0 :: (runHooks env.events (initTask t0)).2,
      (x.status = .downloading ∨ x.status = .converting) := by
    intro x hx
    rcases List.mem_cons.1 hx with rfl | hx'
    · left; rfl
    · exact (runHooks_dlcv env.events (initTask t0) (Or.inl rfl)).2 x hx'
  have hchain1 : List.Chain' rankLe
      ((initTask t0 :: (runHooks env.events (initTask t0)).2) ++ m) := by
    rw [List.chain'_append]
    refine ⟨runHooks_chain_rank env.events (initTask t0) (Or.inl rfl), ?_, ?_⟩
    · rcases hstat with h1 | h1 | h1
      · obtain ⟨a, rfl, _⟩ := map_eq_singleton h1
        exact List.chain'_singleton a
      · obtain ⟨a, d, rfl, ha, hd⟩ := map_eq_pair h1
        rw [List.chain'_pair]
        unfold rankLe
        rw [ha, hd]
        decide
      · obtain ⟨a, d, rfl, ha, hd⟩ := map_eq_pair h1
        rw [List.chain'_pair]
        unfold rankLe
        rw [ha, hd]
        decide
    · intro x hx y hy
      have hx' := hpre x (mem_of_getLast? hx)
      have hy' := tail_head_status hstat y hy
      unfold rankLe
      rcases hx' with hxx | hxx <;> rcases hy' with hyy | hyy <;>
        rw [hxx, hyy] <;> decide
  have hchain2 : List.Chain' nonTerminalFirst
      ((initTask t0 :: (runHooks env.events (initTask t0)).2) ++ m) := by
    rw [List.chain'_append]
    refine ⟨?_, ?_, ?_⟩
    · apply chain_nonTerminal_of_all
      intro x hx
      rcases hpre x hx with hxx | hxx <;> rw [hxx] <;> exact ⟨by decide, by decide⟩
    · rcases hstat with h1 | h1 | h1
      · obtain ⟨a, rfl, _⟩ := map_eq_singleton h1
        exact List.chain'_singleton a
      · obtain ⟨a, d, rfl, ha, hd⟩ := map_eq_pair h1
        rw [List.chain'_pair]
        unfold nonTerminalFirst
        rw [ha]
        exact ⟨by decide, by decide⟩
      · obtain ⟨a, d, rfl, ha, hd⟩ := map_eq_pair h1
        rw [List.chain'_pair]
        unfold nonTerminalFirst
        rw [ha]
        exact ⟨by decide, by decide⟩
    · intro x hx y hy
      have hx' := hpre x (mem_of_getLast? hx)
      unfold nonTerminalFirst
      rcases hx' with hxx | hxx <;> rw [hxx] <;> exact ⟨by decide, by decide⟩
  have hp1 := List.chain'_iff_pairwise.1 hchain1
  have hp2 := List.chain'_iff_pairwise.1 hchain2
  refine (hp1.and hp2).imp ?_
  intro a b hab
  refine ⟨fun ha => absurd ha hab.2.1, fun ha => absurd ha hab.2.2, ?_⟩
  intro ha hb
  have hr := hab.1
  unfold rankLe at hr
  rw [ha, hb] at hr
  exact absurd hr (by decide)

theorem terminal_states_absorbing_witness :
    st0.tasks "t1" = some task0 ∧
    List.Pairwise
      (fun a b : Task =>
        (a.status = .ready → b.status = .ready) ∧
        (a.status = .error → b.status = .error) ∧
        (a.status = .converting → b.status ≠ .downloading))
      (download_video okEnv "t1" "u" "best" "video+audio" st0).2 :=
  ⟨rfl, terminal_states_absorbing okEnv "t1" "u" "best" "video+audio" st0 task0 rfl⟩

/-- Claim C5 (amended): under the fetcher contract for one run — every known-total
report has `downloaded ≤ total`, the known-total reports before the first
transfer-complete signal carry one fixed total and non-decreasing byte counts, and
the event stream ends with a transfer-complete signal — every snapshot's progress is
an integer in 0..100, progress never decreases into a `Running` (`downloading`)
snapshot, an unknown-total report leaves the task unchanged (no crash), and a
`Ready` snapshot has progress 100.  The original claim's `Converting implies 100` is
false: during a secondary transfer the hook overwrites progress while the status
stays `converting` (see the counterexample). -/
theorem progress_protocol (env : FetchEnv) (tid url q fmt : String) (st : SysState)
    (t0 : Task) (h : st.tasks tid = some t0)
    (hb : ∀ e ∈ env.events, ∀ d T, e = HookEvent.progressEvt d T → 0 < T → d ≤ T)
    (hm : monoPairs (knownProgressPairs env.events) = true)
    (hf : ∃ es, env.events = es ++ [HookEvent.finished]) :
    (∀ s ∈ (download_video env tid url q fmt st).2, s.progress ≤ 100) ∧
    List.Pairwise
      (fun a b : Task => b.status = .downloading → a.progress ≤ b.progress)
      (download_video env tid url q fmt st).2 ∧
    (∀ (d : Nat) (t : Task), progress_hook (.progressEvt d 0) t = t) ∧
    (∀ s ∈ (download_video env tid url q fmt st).2,
      s.status = .ready → s.progress = 100) := by
  obtain ⟨m, htr, hstat, hprog⟩ := trace_shape env tid url q fmt st t0 h
  have hbnd := runHooks_bound env.events (initTask t0) hb (by simp [initTask])
  have hfin : (runHooks env.events (initTask t0)).1.progress = 100 := by
    obtain ⟨es, hes⟩ := hf
    rw [hes, runHooks_fst_append]
    simp [runHooks, progress_hook]
  refine ⟨?_, ?_, ?_, ?_⟩
  · intro s hs
    rw [htr] at hs
    rcases List.mem_cons.1 hs with rfl | hs'
    · simp [initTask]
    · rcases List.mem_append.1 hs' with h1 | h1
      · exact hbnd.2 s h1
      · rw [hprog s h1]
        exact hbnd.1
  · rw [htr]
    have hchain : List.Chain' progStep
        ((initTask t0 :: (runHooks env.events (initTask t0)).2) ++ m) := by
      rw [List.chain'_append]
      refine ⟨runHooks_chain_prog env.events (initTask t0) rfl
        (fun d T rest _ => by simp [initTask]) hm, ?_, ?_⟩
      · rcases hstat with h1 | h1 | h1
        · obtain ⟨a, rfl, _⟩ := map_eq_singleton h1
          exact List.chain'_singleton a
        · obtain ⟨a, d, rfl, ha, hd⟩ := map_eq_pair h1
          rw [List.chain'_pair]
          intro hdl
          rw [hd] at hdl
          exact absurd hdl (by decide)
        · obtain ⟨a, d, rfl, ha, hd⟩ := map_eq_pair h1
          rw [List.chain'_pair]
          intro hdl
          rw [hd] at hdl
          exact absurd hdl (by decide)
      · intro x hx y hy
        intro hdl
        rcases tail_head_status hstat y hy with hyy | hyy <;> rw [hyy] at hdl <;>
          exact absurd hdl (by decide)
    have hp := List.chain'_iff_pairwise.1 hchain
    exact hp.imp (fun hab hbdl => (hab hbdl).2)
  · intro d t
    simp [progress_hook]
  · intro s hs hready
    rw [htr] at hs
    rcases List.mem_cons.1 hs with rfl | hs'
    · exact absurd hready (by simp [initTask])
    · rcases List.mem_append.1 hs' with h1 | h1
      · rcases (runHooks_dlcv env.events (initTask t0) (Or.inl rfl)).2 s h1 with
          hh | hh <;> rw [hready] at hh <;> exact absurd hh (by decide)
      · rw [hprog s h1, hfin]

theorem progress_protocol_witness :
    st0.tasks "t1" = some task0 ∧
    (∀ e ∈ okEnv.events, ∀ d T, e = HookEvent.progressEvt d T → 0 < T → d ≤ T) ∧
    monoPairs (knownProgressPairs okEnv.events) = true ∧
    okEnv.events = [HookEvent.progressEvt 40 100] ++ [HookEvent.finished] ∧
    ((∀ s ∈ (download_video okEnv "t1" "u" "best" "video+audio" st0).2,
        s.progress ≤ 100) ∧
     List.Pairwise
       (fun a b : Task => b.status = .downloading → a.progress ≤ b.progress)
       (download_video okEnv "t1" "u" "best" "video+audio" st0).2 ∧
     (∀ (d : Nat) (t : Task), progress_hook (.progressEvt d 0) t = t) ∧
     (∀ s ∈ (download_video okEnv "t1" "u" "best" "video+audio" st0).2,
       s.status = .ready → s.progress = 100)) := by
  have hb : ∀ e ∈ okEnv.events, ∀ d T,
      e = HookEvent.progressEvt d T → 0 < T → d ≤ T := by
    intro e he d T hedt hT
    subst hedt
    simp [okEnv] at he
    obtain ⟨rfl, rfl⟩ := he
    decide
  exact ⟨rfl, hb, by decide, rfl,
    progress_protocol okEnv "t1" "u" "best" "video+audio" st0 task0 rfl hb
      (by decide) ⟨[HookEvent.progressEvt 40 100], rfl⟩⟩

/-- Claim C5 counterexample: in a two-transfer run (`bestvideo+bestaudio`), after
the first transfer completes the task is `converting`, and the second transfer's
hook report overwrites progress to 10 — so the trace contains a snapshot that is in
`Converting` with progress 10, not 100, refuting the claim that `Converting` implies
progress 100. -/
theorem progress_converting_counterexample :
    (Status.converting, 10) ∈
      ((download_video twoStreamEnv "t1" "u" "best" "video+audio" st0).2.map
        (fun s => (s.status, s.progress))) ∧ (10 : Nat) ≠ 100 :=
  ⟨by decide, by decide⟩

end Ytdl
